import Mathlib

/-!
Verification of the single-process steady-state data-reconciliation notebook
(`single_process_unit.ipynb`).  The notebook fixes a measurement model
(measurement `y` on stream 1, mass balance `x1 = x2 + x3`, box bounds
`[0,3]^3`), evaluates an unnormalised posterior on a `100^3` grid,
normalises it with nested trapezoidal integration, runs a random-walk
Metropolis sampler against `log_prob`, and compares against a closed-form
marginal.  Real numbers stand in for Python floats; the stream of values
produced by `np.random.uniform` is modelled as an explicit oracle input
(`np.random.uniform(lo, hi)` returns `lo + (hi - lo) * r` with a raw sample
`r` in the half-open interval `[0, 1)`); `np.log`, which returns `-inf` at
`0`, is modelled with values in `EReal`.
-/

open Real

/-- Module-level constants of the notebook: `sig`, `sig_e`, `y` and the
bounds `a_1..a_3` (`alpha`) and `b_1..b_3` (`beta`). -/
structure Config where
  sig : ℝ
  sig_e : ℝ
  y : ℝ
  a : Fin 3 → ℝ
  b : Fin 3 → ℝ

/-- The constants assigned in the notebook: `sig = 0.1`, `sig_e = 0.0001`,
`y = 1.5`, `alpha = [0,0,0]`, `beta = [3,3,3]`. -/
def defaultCfg : Config := ⟨0.1, 0.0001, 1.5, fun _ => 0, fun _ => 3⟩

/-- The feasibility count of `log_prob`:
`sum((np.array(par)>0)&(np.array(par)<3))`, the number of coordinates lying
strictly between the literals `0` and `3` (the configured bounds `a_i`, `b_i`
are not consulted). -/
noncomputable def feasCount (par : Fin 3 → ℝ) : ℕ :=
  (Finset.univ.filter fun i : Fin 3 => 0 < par i ∧ par i < 3).card

/-- The notebook's `log_prob`: if all three coordinates lie strictly inside
`(0, 3)` it returns
`-((y-par[0])**2)/(2*sig) + -((0-par[0]+par[1]+par[2])**2)/(2*sig_e)`,
otherwise the sentinel `-1e+120`.  Note the denominators `2*sig` and
`2*sig_e`: the constants are used directly, not squared. -/
noncomputable def logProb (cfg : Config) (par : Fin 3 → ℝ) : ℝ :=
  if feasCount par = 3 then
    -((cfg.y - par 0) ^ 2) / (2 * cfg.sig) +
      -((0 - par 0 + par 1 + par 2) ^ 2) / (2 * cfg.sig_e)
  else
    -1e120

lemma feasCount_eq_three_iff (par : Fin 3 → ℝ) :
    feasCount par = 3 ↔ ∀ i, 0 < par i ∧ par i < 3 := by
  unfold feasCount
  constructor
  · intro h i
    have hs : (Finset.univ.filter fun i : Fin 3 => 0 < par i ∧ par i < 3) = Finset.univ :=
      Finset.eq_univ_of_card _ (by simpa using h)
    have hmem : i ∈ Finset.univ.filter fun i : Fin 3 => 0 < par i ∧ par i < 3 := by
      rw [hs]; exact Finset.mem_univ i
    exact (Finset.mem_filter.mp hmem).2
  · intro h
    rw [Finset.filter_eq_self.mpr (fun i _ => h i)]
    simp

lemma logProb_of_feas (cfg : Config) (par : Fin 3 → ℝ)
    (h : ∀ i, 0 < par i ∧ par i < 3) :
    logProb cfg par =
      -((cfg.y - par 0) ^ 2) / (2 * cfg.sig) +
        -((0 - par 0 + par 1 + par 2) ^ 2) / (2 * cfg.sig_e) := by
  unfold logProb
  rw [if_pos ((feasCount_eq_three_iff par).mpr h)]

lemma logProb_of_not_feas (cfg : Config) (par : Fin 3 → ℝ)
    (h : ¬ ∀ i, 0 < par i ∧ par i < 3) :
    logProb cfg par = -1e120 := by
  unfold logProb
  rw [if_neg (fun hc => h ((feasCount_eq_three_iff par).mp hc))]

lemma not_feas_iff (par : Fin 3 → ℝ) :
    (¬ ∀ i, 0 < par i ∧ par i < 3) ↔ ∃ i, par i ≤ 0 ∨ 3 ≤ par i := by
  push_neg
  constructor
  · rintro ⟨i, hi⟩
    rcases le_or_lt (par i) 0 with h | h
    · exact ⟨i, Or.inl h⟩
    · exact ⟨i, Or.inr (hi h)⟩
  · rintro ⟨i, h | h⟩
    · exact ⟨i, fun hpos => absurd hpos (not_lt.mpr h)⟩
    · exact ⟨i, fun _ => h⟩

/-- Evaluation of `np.random.uniform(lo, hi)` at raw sample `r`: the legacy
numpy generator returns `lo + (hi - lo) * random_sample()` with
`random_sample()` in the half-open interval `[0, 1)`. -/
def uniformDraw (lo hi r : ℝ) : ℝ := lo + (hi - lo) * r

/-- Behaviour of `np.log` on the draws `u` of `np.random.uniform(0, 1)`:
finite `log u` for `u > 0`, and `-inf` at `u = 0` (numpy warns but returns
`-inf`, which compares as smaller than every float). -/
noncomputable def npLog (u : ℝ) : EReal := if u = 0 then ⊥ else ((Real.log u : ℝ) : EReal)

/-- The MC start point `x0 = [a_1 + (b_1-a_1)/2, a_2 + (b_2-a_2)/2, a_3 + (b_3-a_3)/2]`. -/
noncomputable def startPoint (cfg : Config) : Fin 3 → ℝ :=
  fun i => cfg.a i + (cfg.b i - cfg.a i) / 2

/-- One loop body of the MCMC cell at current state `xi`, given the raw
samples of the iteration: `uT` for `u = np.random.uniform(0,1)` and `sT i`
for the three raw samples behind
`sel_x = np.array([np.random.uniform(i-0.29, i+0.29) for i in xi])`.
The candidate replaces the state exactly when
`np.log(u) < min(0, p_x - p_x_prev)`. -/
noncomputable def mcStep (cfg : Config) (uT : ℝ) (sT : Fin 3 → ℝ) (xi : Fin 3 → ℝ) :
    Fin 3 → ℝ :=
  let sel : Fin 3 → ℝ := fun i => uniformDraw (xi i - 0.29) (xi i + 0.29) (sT i)
  if npLog uT < ((min 0 (logProb cfg sel - logProb cfg xi) : ℝ) : EReal) then sel else xi

/-- State of the Markov chain after `t` iterations, starting from
`startPoint`, driven by the oracle streams `u` (acceptance draws) and `s`
(proposal draws). -/
noncomputable def mcState (cfg : Config) (u : ℕ → ℝ) (s : ℕ → Fin 3 → ℝ) : ℕ → Fin 3 → ℝ
  | 0 => startPoint cfg
  | t + 1 => mcStep cfg (u t) (s t) (mcState cfg u s t)

/-- The candidate `sel_x` proposed at iteration `t`. -/
noncomputable def mcProposal (cfg : Config) (u : ℕ → ℝ) (s : ℕ → Fin 3 → ℝ) (t : ℕ) :
    Fin 3 → ℝ :=
  fun i => uniformDraw (mcState cfg u s t i - 0.29) (mcState cfg u s t i + 0.29) (s t i)

/-- The list `samp_res` after `n` iterations: every iteration appends the
state reached at its end (`[i for i in xi]`), whether the candidate was
accepted or the previous state repeated. -/
noncomputable def sampRes (cfg : Config) (u : ℕ → ℝ) (s : ℕ → Fin 3 → ℝ) (n : ℕ) :
    List (Fin 3 → ℝ) :=
  (List.range n).map fun t => mcState cfg u s (t + 1)

lemma mcState_succ (cfg : Config) (u : ℕ → ℝ) (s : ℕ → Fin 3 → ℝ) (t : ℕ) :
    mcState cfg u s (t + 1) =
      if npLog (u t) <
          ((min 0 (logProb cfg (mcProposal cfg u s t) - logProb cfg (mcState cfg u s t)) : ℝ) :
            EReal) then
        mcProposal cfg u s t
      else mcState cfg u s t := by
  rfl

lemma sampRes_length (cfg : Config) (u : ℕ → ℝ) (s : ℕ → Fin 3 → ℝ) (n : ℕ) :
    (sampRes cfg u s n).length = n := by
  simp [sampRes]

lemma sampRes_get (cfg : Config) (u : ℕ → ℝ) (s : ℕ → Fin 3 → ℝ) (n t : ℕ)
    (h : t < (sampRes cfg u s n).length) :
    (sampRes cfg u s n).get ⟨t, h⟩ = mcState cfg u s (t + 1) := by
  simp [sampRes]

/-- Value `i` of `np.linspace(a, b, n)`: `n` evenly spaced points including
both endpoints, `a + (b - a) * i / (n - 1)`. -/
noncomputable def linspace (a b : ℝ) (n i : ℕ) : ℝ := a + (b - a) * i / ((n : ℝ) - 1)

/-- The number of grid points per axis, `grid_pts = 100`. -/
def gridPts : ℕ := 100

/-- The grid coordinates of axis `ax`: `np.linspace(a_ax, b_ax, grid_pts)`. -/
noncomputable def axGrid (cfg : Config) (ax : Fin 3) (i : ℕ) : ℝ :=
  linspace (cfg.a ax) (cfg.b ax) gridPts i

/-- First output of `np.meshgrid(x1, x2, x3)` (default `indexing` is `xy`):
an array of shape `(100, 100, 100)` with `X1_g[p0, p1, p2] = x1[p1]`. -/
noncomputable def meshX1 (cfg : Config) (p0 p1 p2 : ℕ) : ℝ := axGrid cfg 0 p1

/-- Second output of `np.meshgrid(x1, x2, x3)`: `X2_g[p0, p1, p2] = x2[p0]`. -/
noncomputable def meshX2 (cfg : Config) (p0 p1 p2 : ℕ) : ℝ := axGrid cfg 1 p0

/-- Third output of `np.meshgrid(x1, x2, x3)`: `X3_g[p0, p1, p2] = x3[p2]`. -/
noncomputable def meshX3 (cfg : Config) (p0 p1 p2 : ℕ) : ℝ := axGrid cfg 2 p2

/-- C-order `flatten` of an array of shape `(100, 100, 100)`: element `m` of
the flat array is element `(m / 10000, m / 100 % 100, m % 100)` of the cube. -/
def flatten3 (A : ℕ → ℕ → ℕ → ℝ) (m : ℕ) : ℝ := A (m / 10000) (m / 100 % 100) (m % 100)

/-- C-order `reshape` of a flat array of length `1000000` to shape
`(100, 100, 100)`. -/
def reshape3 (v : ℕ → ℝ) (p0 p1 p2 : ℕ) : ℝ := v (p0 * 10000 + p1 * 100 + p2)

/-- The unnormalised posterior density expression of the trapezoidal cell,
`np.exp(-((y-i)**2)/(2*sig)) * np.exp(-((0-i+j+k)**2)/(2*sig_e))`, as a
function of the point `(i, j, k) = (x1, x2, x3)`.  As in `log_prob`, the
residuals are divided by `2*sig` and `2*sig_e`, not by the squares. -/
noncomputable def densF (cfg : Config) (x1 x2 x3 : ℝ) : ℝ :=
  Real.exp (-((cfg.y - x1) ^ 2) / (2 * cfg.sig)) *
    Real.exp (-((0 - x1 + x2 + x3) ^ 2) / (2 * cfg.sig_e))

/-- The list `P_` of the trapezoidal cell: the density evaluated on
`zip(X1_g.flatten(), X2_g.flatten(), X3_g.flatten())`. -/
noncomputable def densityFlat (cfg : Config) (m : ℕ) : ℝ :=
  densF cfg (flatten3 (meshX1 cfg) m) (flatten3 (meshX2 cfg) m) (flatten3 (meshX3 cfg) m)

/-- The density field `np.array(P_).reshape(X1_g.shape)`. -/
noncomputable def densityField (cfg : Config) (p0 p1 p2 : ℕ) : ℝ :=
  reshape3 (densityFlat cfg) p0 p1 p2

/-- The transposed field `np.array(P_).reshape(X1_g.shape).T`: a 3-D
transpose reverses the axes. -/
noncomputable def densityFieldT (cfg : Config) (p0 p1 p2 : ℕ) : ℝ :=
  densityField cfg p2 p1 p0

/-- The meshgrid `X2_c, X3_c = np.meshgrid(x2, x3)`: `X2_c[p, q] = x2[q]`. -/
noncomputable def meshX2c (cfg : Config) (p q : ℕ) : ℝ := axGrid cfg 1 q

/-- Crude model of `np.trapezoid(y, x=x, axis=1)` for equal-shape 3-D `y`
and `x` of side `n`: the trapezoid sum along the middle index, elementwise in
the two outer indices. -/
noncomputable def trapzAxis1of3 (n : ℕ) (y x : ℕ → ℕ → ℕ → ℝ) (p0 p2 : ℕ) : ℝ :=
  ∑ m ∈ Finset.range (n - 1),
    (x p0 (m + 1) p2 - x p0 m p2) * (y p0 m p2 + y p0 (m + 1) p2) / 2

/-- Model of `np.trapezoid(y, x=x, axis=1)` for equal-shape 2-D `y` and `x`
of side `n`. -/
noncomputable def trapzAxis1of2 (n : ℕ) (y x : ℕ → ℕ → ℝ) (p0 : ℕ) : ℝ :=
  ∑ m ∈ Finset.range (n - 1), (x p0 (m + 1) - x p0 m) * (y p0 m + y p0 (m + 1)) / 2

/-- Model of `np.trapezoid(y, x=x, axis=0)` for 1-D `y` and `x` of length `n`. -/
noncomputable def trapzAxis0of1 (n : ℕ) (y x : ℕ → ℝ) : ℝ :=
  ∑ m ∈ Finset.range (n - 1), (x (m + 1) - x m) * (y m + y (m + 1)) / 2

/-- The normalising constant `P_E_trapz` of the trapezoidal cell:
`np.trapezoid(np.trapezoid(np.trapezoid(P_.reshape(X1_g.shape).T, x=X1_g, axis=1), x=X2_c, axis=1), x=np.linspace(a_3,b_3,grid_pts), axis=0)`. -/
noncomputable def P_E_trapz (cfg : Config) : ℝ :=
  trapzAxis0of1 gridPts
    (trapzAxis1of2 gridPts
      (trapzAxis1of3 gridPts (densityFieldT cfg) (meshX1 cfg))
      (meshX2c cfg))
    (axGrid cfg 2)

/-- The density value at grid point `(i, j, k)` of the three linspaces,
written directly (the claim's reading of the 100 x 100 x 100 field). -/
noncomputable def densityAt (cfg : Config) (i j k : ℕ) : ℝ :=
  densF cfg (axGrid cfg 0 i) (axGrid cfg 1 j) (axGrid cfg 2 k)

/-- The full nested one-dimensional trapezoidal elimination of all three
axes of the density field, each elimination integrating against the linspace
coordinates of the axis being eliminated: first `x1`, then `x2`, then `x3`. -/
noncomputable def nestedTrapz (cfg : Config) : ℝ :=
  trapzAxis0of1 gridPts
    (fun k =>
      trapzAxis0of1 gridPts
        (fun j => trapzAxis0of1 gridPts (fun i => densityAt cfg i j k) (axGrid cfg 0))
        (axGrid cfg 1))
    (axGrid cfg 2)

lemma densityField_eq (cfg : Config) {i j k : ℕ} (hi : i < 100) (hj : j < 100)
    (hk : k < 100) : densityField cfg j i k = densityAt cfg i j k := by
  unfold densityField reshape3 densityFlat flatten3 meshX1 meshX2 meshX3 densityAt
  have h1 : (j * 10000 + i * 100 + k) / 100 % 100 = i := by omega
  have h2 : (j * 10000 + i * 100 + k) / 10000 = j := by omega
  have h3 : (j * 10000 + i * 100 + k) % 100 = k := by omega
  rw [h1, h2, h3]

/-- C4: the normalising constant `P_E_trapz` — computed in the notebook
through the transposed field, the meshgrid arrays `X1_g` and `X2_c` as `x`
coordinates and the axis choices `1, 1, 0` — equals the plain nested 1-D
trapezoidal elimination of the density field, eliminating the `x1` axis
against the `x1` linspace, then `x2` against the `x2` linspace, then `x3`
against the `x3` linspace. -/
theorem P_E_trapz_eq_nested (cfg : Config) : P_E_trapz cfg = nestedTrapz cfg := by
  have inner_eq : ∀ p j, p < 100 → j < 100 →
      trapzAxis1of3 gridPts (densityFieldT cfg) (meshX1 cfg) p j =
        trapzAxis0of1 gridPts (fun i => densityAt cfg i j p) (axGrid cfg 0) := by
    intro p j hp hj
    unfold trapzAxis1of3 trapzAxis0of1
    apply Finset.sum_congr rfl
    intro m hm
    have hm' : m < 99 := by simpa [gridPts] using Finset.mem_range.mp hm
    have h1 : densityFieldT cfg p m j = densityAt cfg m j p := by
      unfold densityFieldT
      exact densityField_eq cfg (by omega) hj hp
    have h2 : densityFieldT cfg p (m + 1) j = densityAt cfg (m + 1) j p := by
      unfold densityFieldT
      exact densityField_eq cfg (by omega) hj hp
    rw [h1, h2]
    rfl
  have mid_eq : ∀ p, p < 100 →
      trapzAxis1of2 gridPts
          (trapzAxis1of3 gridPts (densityFieldT cfg) (meshX1 cfg)) (meshX2c cfg) p =
        trapzAxis0of1 gridPts
          (fun j => trapzAxis0of1 gridPts (fun i => densityAt cfg i j p) (axGrid cfg 0))
          (axGrid cfg 1) := by
    intro p hp
    unfold trapzAxis1of2 trapzAxis0of1
    apply Finset.sum_congr rfl
    intro m hm
    have hm' : m < 99 := by simpa [gridPts] using Finset.mem_range.mp hm
    rw [inner_eq p m hp (by omega), inner_eq p (m + 1) hp (by omega)]
    rfl
  unfold P_E_trapz nestedTrapz
  unfold trapzAxis0of1
  apply Finset.sum_congr rfl
  intro m hm
  have hm' : m < 99 := by simpa [gridPts] using Finset.mem_range.mp hm
  rw [mid_eq m (by omega), mid_eq (m + 1) (by omega)]
  rfl

@[simp] lemma defaultCfg_sig : defaultCfg.sig = 0.1 := rfl

@[simp] lemma defaultCfg_sig_e : defaultCfg.sig_e = 0.0001 := rfl

@[simp] lemma defaultCfg_y : defaultCfg.y = 1.5 := rfl

@[simp] lemma defaultCfg_a (i : Fin 3) : defaultCfg.a i = 0 := rfl

@[simp] lemma defaultCfg_b (i : Fin 3) : defaultCfg.b i = 3 := rfl

lemma axGrid_default (ax : Fin 3) (i : ℕ) : axGrid defaultCfg ax i = 3 * i / 99 := by
  unfold axGrid linspace gridPts
  simp
  norm_num

lemma axGrid_interior (ax : Fin 3) {i : ℕ} (h1 : 1 ≤ i) (h2 : i ≤ 98) :
    0 < axGrid defaultCfg ax i ∧ axGrid defaultCfg ax i < 3 := by
  rw [axGrid_default]
  have hc1 : (1 : ℝ) ≤ (i : ℝ) := by exact_mod_cast h1
  have hc2 : (i : ℝ) ≤ 98 := by exact_mod_cast h2
  constructor
  · nlinarith
  · nlinarith

/-- C5 (amended): at every grid point whose three coordinates are strictly
inside the box (axis indices between 1 and 98), the value the trapezoidal
cell stores in the density field equals `exp(log_prob(x))` at that point. -/
theorem densityField_exp_logProb_interior (i j k : ℕ)
    (hi : 1 ≤ i ∧ i ≤ 98) (hj : 1 ≤ j ∧ j ≤ 98) (hk : 1 ≤ k ∧ k ≤ 98) :
    densityField defaultCfg j i k =
      Real.exp (logProb defaultCfg
        ![axGrid defaultCfg 0 i, axGrid defaultCfg 1 j, axGrid defaultCfg 2 k]) := by
  rw [densityField_eq defaultCfg (by omega) (by omega) (by omega)]
  rw [logProb_of_feas]
  · unfold densityAt densF
    rw [Real.exp_add]
    congr 2 <;> simp
  · intro idx
    fin_cases idx
    · simpa using axGrid_interior 0 hi.1 hi.2
    · simpa using axGrid_interior 1 hj.1 hj.2
    · simpa using axGrid_interior 2 hk.1 hk.2

/-- C5 witness: the interior identity instantiated at grid indices `(1,1,1)`. -/
theorem densityField_exp_logProb_witness :
    densityField defaultCfg 1 1 1 =
      Real.exp (logProb defaultCfg
        ![axGrid defaultCfg 0 1, axGrid defaultCfg 1 1, axGrid defaultCfg 2 1]) :=
  densityField_exp_logProb_interior 1 1 1 ⟨by norm_num, by norm_num⟩
    ⟨by norm_num, by norm_num⟩ ⟨by norm_num, by norm_num⟩

/-- C5 counterexample: at the boundary grid point `(0, 0, 0)` the stored
density is `exp(-(1.5)^2/(2*0.1)) = exp(-45/4)`, strictly larger than
`exp(log_prob((0,0,0))) = exp(-1e+120)`; the two sides of the claimed
identity differ at this grid point. -/
theorem densityField_boundary_mismatch :
    Real.exp (logProb defaultCfg ![(0 : ℝ), 0, 0]) < densityField defaultCfg 0 0 0 := by
  have h1 : logProb defaultCfg ![(0 : ℝ), 0, 0] = -1e120 := by
    apply logProb_of_not_feas
    intro h
    have := (h 0).1
    simp at this
  have h2 : densityField defaultCfg 0 0 0 = densityAt defaultCfg 0 0 0 :=
    densityField_eq defaultCfg (by norm_num) (by norm_num) (by norm_num)
  rw [h1, h2]
  unfold densityAt densF
  rw [axGrid_default, axGrid_default, axGrid_default]
  norm_num

open Classical in
/-- Reading of the specification claim for LogPosterior: for components
strictly inside the box bounds return
`-((y - x1)^2)/(2*sigma^2) - ((M.x)^2)/(2*sigma_e^2)` with `M.x = x1 - x2 - x3`
and the configured `sigma`, `sigma_e` squared in the denominators; otherwise
the sentinel `-1e+120`. -/
noncomputable def logProbSpec (cfg : Config) (par : Fin 3 → ℝ) : ℝ :=
  if ∀ i, cfg.a i < par i ∧ par i < cfg.b i then
    -((cfg.y - par 0) ^ 2) / (2 * cfg.sig ^ 2) -
      ((par 0 - par 1 - par 2) ^ 2) / (2 * cfg.sig_e ^ 2)
  else
    -1e120

/-- C1 (amended): for every flow vector strictly inside the box, `log_prob`
returns `-((y - x1)^2)/(2*sig) - ((x1 - x2 - x3)^2)/(2*sig_e)` — the
configured constants `sig = 0.1`, `sig_e = 0.0001` are used directly as the
denominator scales, not squared — and for every vector with a coordinate on
or outside the bounds it returns the sentinel `-1e+120` instead of raising. -/
theorem logProb_formula_and_sentinel (par : Fin 3 → ℝ) :
    ((∀ i, 0 < par i ∧ par i < 3) →
      logProb defaultCfg par =
        -((1.5 - par 0) ^ 2) / (2 * 0.1) - ((par 0 - par 1 - par 2) ^ 2) / (2 * 0.0001)) ∧
    ((∃ i, par i ≤ 0 ∨ 3 ≤ par i) → logProb defaultCfg par = -1e120) := by
  constructor
  · intro h
    rw [logProb_of_feas defaultCfg par h, defaultCfg_y, defaultCfg_sig, defaultCfg_sig_e]
    ring
  · intro h
    exact logProb_of_not_feas defaultCfg par ((not_feas_iff par).mpr h)

/-- C1 counterexample: at the strictly interior point `(1, 1/2, 1/2)` the
code returns `-((1.5-1)^2)/(2*0.1) = -5/4`, while the claimed formula with
squared scales gives `-((1.5-1)^2)/(2*0.1^2) = -25/2`; the two differ. -/
theorem logProb_spec_mismatch_at_point :
    logProb defaultCfg ![1, 1/2, 1/2] = -(5/4) ∧
    logProbSpec defaultCfg ![1, 1/2, 1/2] = -(25/2) ∧
    (-(25/2) : ℝ) < -(5/4) := by
  have hfeas : ∀ i : Fin 3, 0 < (![1, 1/2, 1/2] : Fin 3 → ℝ) i ∧
      (![1, 1/2, 1/2] : Fin 3 → ℝ) i < 3 := by
    intro i
    fin_cases i <;> constructor <;> norm_num
  refine ⟨?_, ?_, by norm_num⟩
  · rw [logProb_of_feas defaultCfg _ hfeas]
    norm_num
  · unfold logProbSpec
    rw [if_pos]
    · norm_num
    · intro i
      simpa using hfeas i

/-- Configuration with other bounds than the notebook's defaults (same
`sig`, `sig_e`, `y`), used to exhibit that `log_prob` never reads the
bounds. -/
def altCfg : Config := ⟨0.1, 0.0001, 1.5, fun _ => -5, fun _ => 7⟩

/-- C10: the feasibility test of `log_prob` compares against the literals
`0` and `3`, not against the configured bounds: the value of `log_prob` is
the same under any two configurations agreeing on `sig`, `sig_e`, `y`
(whatever their `a`, `b`), the sentinel branch is taken exactly when some
coordinate is on or outside the open interval `(0, 3)`, and on that branch
the result is `-1e+120`. -/
theorem logProb_ignores_bounds (cfg cfg2 : Config) (par : Fin 3 → ℝ)
    (h1 : cfg.sig = cfg2.sig) (h2 : cfg.sig_e = cfg2.sig_e) (h3 : cfg.y = cfg2.y) :
    (logProb cfg par = logProb cfg2 par ∧
      (feasCount par ≠ 3 ↔ ∃ i, par i ≤ 0 ∨ 3 ≤ par i)) ∧
    (feasCount par ≠ 3 → logProb cfg par = -1e120) := by
  refine ⟨⟨?_, ?_⟩, ?_⟩
  · unfold logProb
    rw [h1, h2, h3]
  · rw [← not_feas_iff par]
    exact not_congr (feasCount_eq_three_iff par)
  · intro h
    exact logProb_of_not_feas cfg par (fun hc => h ((feasCount_eq_three_iff par).mpr hc))

/-- C10 witness: at the out-of-box point `(5, 5, 5)`, `log_prob` agrees
between the default configuration and one with bounds `[-5, 7]`, and takes
the sentinel branch. -/
theorem logProb_ignores_bounds_witness :
    logProb defaultCfg (fun _ => 5) = logProb altCfg (fun _ => 5) ∧
    (feasCount (fun _ => 5) ≠ 3 ↔ ∃ i : Fin 3, (5 : ℝ) ≤ 0 ∨ (3 : ℝ) ≤ 5) :=
  (logProb_ignores_bounds defaultCfg altCfg (fun _ => 5) rfl rfl rfl).1

/-- C3: one iteration of the sampling loop proposes each coordinate by a
uniform draw from the interval of half-width `0.29` around the current
coordinate (raw samples in `[0,1)` land the candidate in
`[current - 0.29, current + 0.29)`), and for any acceptance draw `u > 0` the
state moves to the candidate exactly when
`log(u) < min(0, log_p_candidate - log_p_current)`, otherwise it is
unchanged. -/
theorem mcStep_acceptance_rule (cfg : Config) (uT : ℝ) (sT xi : Fin 3 → ℝ) (hu : 0 < uT) :
    (∀ i, sT i ∈ Set.Ico (0 : ℝ) 1 →
      uniformDraw (xi i - 0.29) (xi i + 0.29) (sT i) ∈
        Set.Ico (xi i - 0.29) (xi i + 0.29)) ∧
    mcStep cfg uT sT xi =
      if Real.log uT <
          min 0 (logProb cfg (fun i => uniformDraw (xi i - 0.29) (xi i + 0.29) (sT i)) -
            logProb cfg xi) then
        (fun i => uniformDraw (xi i - 0.29) (xi i + 0.29) (sT i))
      else xi := by
  constructor
  · intro i hsi
    rw [Set.mem_Ico] at hsi
    obtain ⟨h0, h1⟩ := hsi
    unfold uniformDraw
    rw [Set.mem_Ico]
    constructor
    · nlinarith
    · nlinarith
  · have hlog : npLog uT = ((Real.log uT : ℝ) : EReal) := by
      unfold npLog
      rw [if_neg (ne_of_gt hu)]
    have hstep : mcStep cfg uT sT xi =
        if npLog uT <
            ((min 0 (logProb cfg (fun i => uniformDraw (xi i - 0.29) (xi i + 0.29) (sT i)) -
              logProb cfg xi) : ℝ) : EReal) then
          (fun i => uniformDraw (xi i - 0.29) (xi i + 0.29) (sT i))
        else xi := rfl
    rw [hstep, hlog]
    exact if_congr EReal.coe_lt_coe_iff rfl rfl

/-- C3 witness: the transition rule instantiated at the default
configuration, current state `(1,1,1)`, raw proposal samples `1/2` and
acceptance draw `u = 1/2`. -/
theorem mcStep_acceptance_rule_witness :
    (∀ i : Fin 3, (fun _ : Fin 3 => (1 / 2 : ℝ)) i ∈ Set.Ico (0 : ℝ) 1 →
      uniformDraw ((fun _ : Fin 3 => (1 : ℝ)) i - 0.29) ((fun _ : Fin 3 => (1 : ℝ)) i + 0.29)
          ((fun _ : Fin 3 => (1 / 2 : ℝ)) i) ∈
        Set.Ico ((fun _ : Fin 3 => (1 : ℝ)) i - 0.29) ((fun _ : Fin 3 => (1 : ℝ)) i + 0.29)) ∧
    mcStep defaultCfg (1 / 2) (fun _ => 1 / 2) (fun _ => 1) =
      if Real.log (1 / 2) <
          min 0 (logProb defaultCfg
            (fun i => uniformDraw ((fun _ : Fin 3 => (1 : ℝ)) i - 0.29)
              ((fun _ : Fin 3 => (1 : ℝ)) i + 0.29) ((fun _ : Fin 3 => (1 / 2 : ℝ)) i)) -
            logProb defaultCfg (fun _ => 1)) then
        (fun i => uniformDraw ((fun _ : Fin 3 => (1 : ℝ)) i - 0.29)
          ((fun _ : Fin 3 => (1 : ℝ)) i + 0.29) ((fun _ : Fin 3 => (1 / 2 : ℝ)) i))
      else (fun _ => 1) :=
  mcStep_acceptance_rule defaultCfg (1 / 2) (fun _ => 1 / 2) (fun _ => 1) (by norm_num)

/-- C6: the sampling loop runs for exactly 1,500,000 iterations and every
iteration appends exactly one entry to `samp_res` — the state after the
iteration, which is the accepted candidate or a repeat of the unchanged
previous state — so the recorded chain length equals the iteration count. -/
theorem sampler_records_once_per_iteration (cfg : Config) (u : ℕ → ℝ) (s : ℕ → Fin 3 → ℝ) :
    (sampRes cfg u s 1500000).length = 1500000 ∧
    ∀ t (ht : t < 1500000),
      (sampRes cfg u s 1500000).get ⟨t, by rw [sampRes_length]; exact ht⟩ =
        mcStep cfg (u t) (s t) (mcState cfg u s t) ∧
      ((sampRes cfg u s 1500000).get ⟨t, by rw [sampRes_length]; exact ht⟩ =
          mcProposal cfg u s t ∨
        (sampRes cfg u s 1500000).get ⟨t, by rw [sampRes_length]; exact ht⟩ =
          mcState cfg u s t) := by
  refine ⟨sampRes_length cfg u s 1500000, fun t ht => ?_⟩
  rw [sampRes_get]
  constructor
  · rfl
  · rw [mcState_succ]
    by_cases h : npLog (u t) <
        ((min 0 (logProb cfg (mcProposal cfg u s t) - logProb cfg (mcState cfg u s t)) : ℝ) :
          EReal)
    · left
      rw [if_pos h]
    · right
      rw [if_neg h]

/-- Degenerate configuration used for the error-handling claim: negative
`sig` and `sig_e`, and coinciding bounds `a_i = b_i = 2`. -/
def badCfg : Config := ⟨-1, -1, 1.5, fun _ => 2, fun _ => 2⟩

/-- C8 (amended): the notebook performs no configuration validation: even
under a configuration that violates every well-formedness condition
(`sig <= 0`, `sig_e <= 0`, `a_i >= b_i`), a run of the sampler completes and
records one entry per iteration, and `log_prob` returns an ordinary branch
value (here even a positive one, `5/8`); nothing rejects the configuration
before a run. -/
theorem degenerate_config_not_rejected :
    (badCfg.sig ≤ 0 ∧ badCfg.sig_e ≤ 0 ∧ ∀ i, badCfg.b i ≤ badCfg.a i) ∧
    (∀ (u : ℕ → ℝ) (s : ℕ → Fin 3 → ℝ) (n : ℕ), (sampRes badCfg u s n).length = n) ∧
    logProb badCfg (fun _ => 1) = 5 / 8 := by
  refine ⟨⟨by norm_num [badCfg], by norm_num [badCfg], fun i => by norm_num [badCfg]⟩,
    fun u s n => sampRes_length badCfg u s n, ?_⟩
  rw [logProb_of_feas badCfg _ (fun i => ⟨by norm_num, by norm_num⟩)]
  norm_num [badCfg]

/-- C8 counterexample: the claimed rejection of degenerate configurations
does not happen — with `sig = sig_e = -1 < 0` and `a_1 = b_1`, a 3-iteration
sampling run still completes and records 3 samples. -/
theorem degenerate_config_run_completes :
    badCfg.sig < 0 ∧ badCfg.sig_e < 0 ∧ badCfg.a 0 = badCfg.b 0 ∧
    (sampRes badCfg (fun _ => 1 / 2) (fun _ _ => 1 / 2) 3).length = 3 := by
  refine ⟨by norm_num [badCfg], by norm_num [badCfg], rfl, sampRes_length _ _ _ _⟩

lemma logProb_lower (par : Fin 3 → ℝ) (h : ∀ i, 0 < par i ∧ par i < 3) :
    (-180012 : ℝ) ≤ logProb defaultCfg par := by
  have hrw : logProb defaultCfg par =
      -5 * (1.5 - par 0) ^ 2 - 5000 * (0 - par 0 + par 1 + par 2) ^ 2 := by
    rw [logProb_of_feas defaultCfg par h, defaultCfg_y, defaultCfg_sig, defaultCfg_sig_e]
    norm_num
    ring
  obtain ⟨h0a, h0b⟩ := h 0
  obtain ⟨h1a, h1b⟩ := h 1
  obtain ⟨h2a, h2b⟩ := h 2
  rw [hrw]
  nlinarith [mul_pos h0a (sub_pos.mpr h0b),
    mul_pos (show (0 : ℝ) < 3 - par 0 + par 1 + par 2 by linarith)
      (show (0 : ℝ) < 6 + par 0 - par 1 - par 2 by linarith)]

/-- C2 (amended): for every run of the sampler from the box midpoint in
which each acceptance draw `u` is at least `exp(-10^119)` — in particular
`u` is not `0`, so `np.log(u)` is finite and above any value that could beat
the sentinel gap — every chain state (hence every recorded entry of
`samp_res`) lies inside the box `[alpha, beta]`, and a proposed candidate
with any coordinate on or outside a bound is never accepted. -/
theorem mcChain_in_box_of_positive_draws (u : ℕ → ℝ) (s : ℕ → Fin 3 → ℝ)
    (hu : ∀ t, Real.exp (-(10 : ℝ) ^ 119) ≤ u t) :
    (∀ t i, 0 < mcState defaultCfg u s t i ∧ mcState defaultCfg u s t i < 3) ∧
    (∀ t (ht : t < (sampRes defaultCfg u s 1500000).length) i,
      defaultCfg.a i ≤ (sampRes defaultCfg u s 1500000).get ⟨t, ht⟩ i ∧
      (sampRes defaultCfg u s 1500000).get ⟨t, ht⟩ i ≤ defaultCfg.b i) ∧
    (∀ t, ¬ (∀ i, 0 < mcProposal defaultCfg u s t i ∧ mcProposal defaultCfg u s t i < 3) →
      mcState defaultCfg u s (t + 1) = mcState defaultCfg u s t) := by
  have hupos : ∀ t, 0 < u t := fun t => lt_of_lt_of_le (Real.exp_pos _) (hu t)
  have hlogu : ∀ t, -(10 : ℝ) ^ 119 ≤ Real.log (u t) := fun t =>
    (Real.le_log_iff_exp_le (hupos t)).mpr (hu t)
  have key : ∀ t, (∀ i, 0 < mcState defaultCfg u s t i ∧ mcState defaultCfg u s t i < 3) →
      ¬ (∀ i, 0 < mcProposal defaultCfg u s t i ∧ mcProposal defaultCfg u s t i < 3) →
      mcState defaultCfg u s (t + 1) = mcState defaultCfg u s t := by
    intro t hcur hprop
    rw [mcState_succ, if_neg]
    intro hacc
    have hpc : logProb defaultCfg (mcProposal defaultCfg u s t) = -1e120 :=
      logProb_of_not_feas _ _ hprop
    have hlb := logProb_lower _ hcur
    have hnp : npLog (u t) = ((Real.log (u t) : ℝ) : EReal) := by
      unfold npLog
      rw [if_neg (ne_of_gt (hupos t))]
    rw [hnp, EReal.coe_lt_coe_iff] at hacc
    have hmin : min 0 (logProb defaultCfg (mcProposal defaultCfg u s t) -
        logProb defaultCfg (mcState defaultCfg u s t)) ≤ -1e120 + 180012 := by
      refine le_trans (min_le_right _ _) ?_
      rw [hpc]
      linarith
    have hnum : (-1e120 + 180012 : ℝ) < -(10 : ℝ) ^ 119 := by norm_num
    linarith [hlogu t]
  have hbox : ∀ t i, 0 < mcState defaultCfg u s t i ∧ mcState defaultCfg u s t i < 3 := by
    intro t
    induction t with
    | zero =>
      intro i
      constructor <;> norm_num [mcState, startPoint]
    | succ t ih =>
      by_cases hprop : ∀ i, 0 < mcProposal defaultCfg u s t i ∧ mcProposal defaultCfg u s t i < 3
      · rw [mcState_succ]
        by_cases hacc : npLog (u t) <
            ((min 0 (logProb defaultCfg (mcProposal defaultCfg u s t) -
              logProb defaultCfg (mcState defaultCfg u s t)) : ℝ) : EReal)
        · rw [if_pos hacc]
          exact hprop
        · rw [if_neg hacc]
          exact ih
      · rw [key t ih hprop]
        exact ih
  refine ⟨hbox, ?_, fun t => key t (hbox t)⟩
  intro t ht i
  rw [sampRes_get]
  obtain ⟨hl, hr⟩ := hbox (t + 1) i
  rw [defaultCfg_a, defaultCfg_b]
  exact ⟨le_of_lt hl, le_of_lt hr⟩

/-- C2 witness: the bounded-below draw hypothesis holds for the constant
stream `u = 1/2`, and the chain it drives stays inside the box. -/
theorem mcChain_in_box_witness :
    (∀ t : ℕ, Real.exp (-(10 : ℝ) ^ 119) ≤ (fun _ : ℕ => (1 / 2 : ℝ)) t) ∧
    (∀ t i, 0 < mcState defaultCfg (fun _ => 1 / 2) (fun _ _ => 1 / 2) t i ∧
      mcState defaultCfg (fun _ => 1 / 2) (fun _ _ => 1 / 2) t i < 3) := by
  have hyp : ∀ t : ℕ, Real.exp (-(10 : ℝ) ^ 119) ≤ (fun _ : ℕ => (1 / 2 : ℝ)) t := by
    intro t
    have h1 : Real.exp (-(10 : ℝ) ^ 119) ≤ Real.exp (-1) := by
      rw [Real.exp_le_exp]
      norm_num
    have h2 : Real.exp (-1 : ℝ) ≤ 1 / 2 := by
      rw [Real.exp_neg]
      have h3 : (2 : ℝ) ≤ Real.exp 1 := by nlinarith [Real.add_one_le_exp (1 : ℝ)]
      have h4 : (Real.exp 1)⁻¹ ≤ (2 : ℝ)⁻¹ := by
        apply inv_le_inv_of_le (by norm_num) h3
      simpa using h4
    exact le_trans h1 h2
  exact ⟨hyp, (mcChain_in_box_of_positive_draws _ _ hyp).1⟩

/-- C2 counterexample: the draw `u = 0` is a value `np.random.uniform(0, 1)`
can produce (its interval is half-open, including the low end), and
`np.log(0) = -inf` beats the finite sentinel, so with `u = 0` at every
iteration the sampler accepts every candidate; the raw proposal samples
`57/58` on the first coordinate walk it by `+0.28` per iteration, and the
recorded entry of `samp_res` at index 5 has first coordinate `3.18`,
strictly outside the bound `beta_1 = 3`. -/
theorem mcChain_escapes_box_at_u_zero :
    (0 : ℝ) ∈ Set.Ico (0 : ℝ) 1 ∧ (57 / 58 : ℝ) ∈ Set.Ico (0 : ℝ) 1 ∧
    (1 / 2 : ℝ) ∈ Set.Ico (0 : ℝ) 1 ∧
    defaultCfg.b 0 <
      (sampRes defaultCfg (fun _ => 0) (fun _ i => if i = 0 then 57 / 58 else 1 / 2)
        1500000).get ⟨5, by rw [sampRes_length]; norm_num⟩ 0 := by
  refine ⟨Set.mem_Ico.mpr ⟨le_refl 0, by norm_num⟩,
    Set.mem_Ico.mpr ⟨by norm_num, by norm_num⟩,
    Set.mem_Ico.mpr ⟨by norm_num, by norm_num⟩, ?_⟩
  rw [sampRes_get, defaultCfg_b]
  have hstep : ∀ x : Fin 3 → ℝ,
      mcStep defaultCfg 0 (fun i => if i = 0 then (57 / 58 : ℝ) else 1 / 2) x 0 =
        x 0 + 0.28 := by
    intro x
    have hsel : mcStep defaultCfg 0 (fun i => if i = 0 then (57 / 58 : ℝ) else 1 / 2) x =
        fun i => uniformDraw (x i - 0.29) (x i + 0.29) (if i = 0 then (57 / 58 : ℝ) else 1 / 2) := by
      unfold mcStep
      rw [if_pos]
      unfold npLog
      rw [if_pos rfl]
      exact EReal.bot_lt_coe _
    rw [hsel]
    unfold uniformDraw
    norm_num
    ring
  have hrec : ∀ t, mcState defaultCfg (fun _ => 0)
      (fun _ i => if i = 0 then (57 / 58 : ℝ) else 1 / 2) (t + 1) 0 =
      mcState defaultCfg (fun _ => 0)
        (fun _ i => if i = 0 then (57 / 58 : ℝ) else 1 / 2) t 0 + 0.28 :=
    fun t => hstep _
  have h0 : mcState defaultCfg (fun _ => 0)
      (fun _ i => if i = 0 then (57 / 58 : ℝ) else 1 / 2) 0 0 = 1.5 := by
    norm_num [mcState, startPoint]
  rw [hrec 5, hrec 4, hrec 3, hrec 2, hrec 1, hrec 0, h0]
  norm_num

/-- The analytical-method loop body: for a grid point `(j, k) = (x2, x3)` it
appends `np.log(term1) + np.log(term2) + term3 + term4 + np.log(term5) + term6`
with
`term1 = 1/sqrt(2*pi*sig^2)`, `term2 = 1/sqrt(2*pi*sig_e^2)`,
`term3 = -((j+k)^2)/(2*sig_e^2)`, `term4 = -(y^2)/(2*sig^2)`,
`term5 = sqrt(pi/((1/(2*sig^2))+(1/(2*sig_e^2))))` and
`term6 = (((y/(sig^2))+((j+k)/(sig_e^2)))^2)/(4*((1/(2*sig^2))+(1/(2*sig_e^2))))`. -/
noncomputable def logC (x2 x3 y sig sig_e : ℝ) : ℝ :=
  Real.log (1 / Real.sqrt (2 * π * sig ^ 2)) +
    Real.log (1 / Real.sqrt (2 * π * sig_e ^ 2)) +
    (-((x2 + x3) ^ 2) / (2 * sig_e ^ 2)) +
    (-(y ^ 2) / (2 * sig ^ 2)) +
    Real.log (Real.sqrt (π / (1 / (2 * sig ^ 2) + 1 / (2 * sig_e ^ 2)))) +
    ((y / sig ^ 2 + (x2 + x3) / sig_e ^ 2) ^ 2) /
      (4 * (1 / (2 * sig ^ 2) + 1 / (2 * sig_e ^ 2)))

/-- C7: the analytical-method value is a pure function of
`(x2, x3, y, sigma, sigma_e)` and, with `s = x2 + x3`, equals exactly
`-0.5*log(2*pi*sigma^2) - 0.5*log(2*pi*sigma_e^2) - s^2/(2*sigma_e^2)
 - y^2/(2*sigma^2) + 0.5*log(pi / (1/(2*sigma^2) + 1/(2*sigma_e^2)))
 + ((y/sigma^2 + s/sigma_e^2)^2) / (4*(1/(2*sigma^2) + 1/(2*sigma_e^2)))`. -/
theorem logC_closed_form (x2 x3 y sig sig_e : ℝ) :
    logC x2 x3 y sig sig_e =
      -0.5 * Real.log (2 * π * sig ^ 2) - 0.5 * Real.log (2 * π * sig_e ^ 2) -
        (x2 + x3) ^ 2 / (2 * sig_e ^ 2) - y ^ 2 / (2 * sig ^ 2) +
        0.5 * Real.log (π / (1 / (2 * sig ^ 2) + 1 / (2 * sig_e ^ 2))) +
        (y / sig ^ 2 + (x2 + x3) / sig_e ^ 2) ^ 2 /
          (4 * (1 / (2 * sig ^ 2) + 1 / (2 * sig_e ^ 2))) := by
  have hlog_inv_sqrt : ∀ a : ℝ, 0 ≤ a →
      Real.log (1 / Real.sqrt a) = -0.5 * Real.log a := by
    intro a ha
    rw [one_div, Real.log_inv, Real.log_sqrt ha]
    ring
  have ha1 : (0 : ℝ) ≤ 2 * π * sig ^ 2 := by positivity
  have ha2 : (0 : ℝ) ≤ 2 * π * sig_e ^ 2 := by positivity
  have ha3 : (0 : ℝ) ≤ π / (1 / (2 * sig ^ 2) + 1 / (2 * sig_e ^ 2)) := by
    apply div_nonneg Real.pi_nonneg
    have hb1 : (0 : ℝ) ≤ 1 / (2 * sig ^ 2) := by positivity
    have hb2 : (0 : ℝ) ≤ 1 / (2 * sig_e ^ 2) := by positivity
    linarith
  unfold logC
  rw [hlog_inv_sqrt _ ha1, hlog_inv_sqrt _ ha2, Real.log_sqrt ha3]
  ring

/-- The `x1`-integral over the box edge `[0, 3]` of the density the
quadrature evaluates on its grid (and whose logarithm `log_prob` hands the
sampler inside the box), at fixed `(x2, x3)`. -/
noncomputable def xIntegral (x2 x3 : ℝ) : ℝ := ∫ t in (0 : ℝ)..3, densF defaultCfg t x2 x3

lemma densF_continuous (x2 x3 : ℝ) : Continuous fun t => densF defaultCfg t x2 x3 := by
  unfold densF
  fun_prop

lemma densF_nonneg (cfg : Config) (x1 x2 x3 : ℝ) : 0 ≤ densF cfg x1 x2 x3 := by
  unfold densF
  positivity

lemma densF_le_one (x1 x2 x3 : ℝ) : densF defaultCfg x1 x2 x3 ≤ 1 := by
  unfold densF
  rw [defaultCfg_y, defaultCfg_sig, defaultCfg_sig_e]
  have h1 : Real.exp (-((1.5 - x1) ^ 2) / (2 * 0.1)) ≤ 1 := by
    rw [Real.exp_le_one_iff, neg_div]
    have h : (0 : ℝ) ≤ (1.5 - x1) ^ 2 / (2 * 0.1) := by positivity
    linarith
  have h2 : Real.exp (-((0 - x1 + x2 + x3) ^ 2) / (2 * 0.0001)) ≤ 1 := by
    rw [Real.exp_le_one_iff, neg_div]
    have h : (0 : ℝ) ≤ (0 - x1 + x2 + x3) ^ 2 / (2 * 0.0001) := by positivity
    linarith
  exact mul_le_one h1 (Real.exp_nonneg _) h2

lemma densF_lower_on_edge {t : ℝ} (h0 : 0 ≤ t) (h1 : t ≤ 0.0001) :
    Real.exp (-12) ≤ densF defaultCfg t 0 0 := by
  unfold densF
  rw [defaultCfg_y, defaultCfg_sig, defaultCfg_sig_e, ← Real.exp_add, Real.exp_le_exp]
  have e1 : -((1.5 - t) ^ 2) / (2 * (0.1 : ℝ)) = -5 * (1.5 - t) ^ 2 := by ring
  have e2 : -((0 - t + 0 + 0) ^ 2) / (2 * (0.0001 : ℝ)) = -5000 * t ^ 2 := by ring
  rw [e1, e2]
  nlinarith

lemma xIntegral_ridge_le : xIntegral (3 / 4) (3 / 4) ≤ 3 := by
  unfold xIntegral
  have hint : IntervalIntegrable (fun t => densF defaultCfg t (3 / 4) (3 / 4))
      MeasureTheory.volume 0 3 := (densF_continuous _ _).intervalIntegrable 0 3
  have h := intervalIntegral.integral_mono_on (by norm_num : (0 : ℝ) ≤ 3) hint
    intervalIntegrable_const (fun x _ => densF_le_one x (3 / 4) (3 / 4))
  simpa using h

lemma xIntegral_corner_lower : 0.0001 * Real.exp (-12) ≤ xIntegral 0 0 := by
  unfold xIntegral
  have h1 : IntervalIntegrable (fun t => densF defaultCfg t 0 0)
      MeasureTheory.volume 0 0.0001 := (densF_continuous _ _).intervalIntegrable _ _
  have h2 : IntervalIntegrable (fun t => densF defaultCfg t 0 0)
      MeasureTheory.volume 0.0001 3 := (densF_continuous _ _).intervalIntegrable _ _
  have hsplit := intervalIntegral.integral_add_adjacent_intervals h1 h2
  have hA : ((0.0001 : ℝ) - 0) • Real.exp (-12) ≤
      ∫ t in (0 : ℝ)..0.0001, densF defaultCfg t 0 0 := by
    have := intervalIntegral.integral_mono_on (by norm_num : (0 : ℝ) ≤ 0.0001)
      intervalIntegrable_const h1
      (fun x hx => densF_lower_on_edge hx.1 hx.2)
    simpa using this
  have hB : 0 ≤ ∫ t in (0.0001 : ℝ)..3, densF defaultCfg t 0 0 :=
    intervalIntegral.integral_nonneg (by norm_num) (fun x _ => densF_nonneg defaultCfg x 0 0)
  have hsmul : ((0.0001 : ℝ) - 0) • Real.exp (-12) = 0.0001 * Real.exp (-12) := by
    norm_num
  linarith [hsplit, hA, hB, hsmul.symm.le]

lemma logC_diff_at_default :
    logC (3 / 4) (3 / 4) 1.5 0.1 0.0001 - logC 0 0 1.5 0.1 0.0001 = 112500000 / 1000001 := by
  unfold logC
  ring_nf

/-- C9: the density targeted by the sampler and quadrature (residuals
divided by `2*sig` and `2*sig_e`) and the density whose `x1`-marginal the
analytical cell computes (residuals divided by `2*sig^2` and `2*sig_e^2`,
same constants) are not the same distribution: at the in-box points
`(x2, x3) = (0.75, 0.75)` and `(0, 0)` the cross-ratio of
`exp(logC)` against the `x1`-integral of the quadrature density is strictly
unbalanced, so no single constant of proportionality can relate them over
the box. -/
theorem analytic_marginal_not_proportional :
    Real.exp (logC 0 0 1.5 0.1 0.0001) * xIntegral (3 / 4) (3 / 4) <
      Real.exp (logC (3 / 4) (3 / 4) 1.5 0.1 0.0001) * xIntegral 0 0 := by
  have hdiff : logC (3 / 4) (3 / 4) 1.5 0.1 0.0001 =
      logC 0 0 1.5 0.1 0.0001 + 112500000 / 1000001 := by
    have := logC_diff_at_default
    linarith
  have hI1 := xIntegral_ridge_le
  have hI0 := xIntegral_corner_lower
  have hexp100 : (456976 : ℝ) ≤ Real.exp 100 := by
    have h1 : (26 : ℝ) ≤ Real.exp 25 := by nlinarith [Real.add_one_le_exp (25 : ℝ)]
    have h2 : Real.exp 100 = Real.exp 25 ^ (4 : ℕ) := by
      rw [← Real.exp_nat_mul]
      norm_num
    rw [h2]
    calc (456976 : ℝ) = 26 ^ (4 : ℕ) := by norm_num
      _ ≤ Real.exp 25 ^ (4 : ℕ) := pow_le_pow_left (by norm_num) h1 4
  set A1 := logC (3 / 4) (3 / 4) 1.5 0.1 0.0001
  set A0 := logC 0 0 1.5 0.1 0.0001
  have e1 : Real.exp A1 * (0.0001 * Real.exp (-12)) ≤ Real.exp A1 * xIntegral 0 0 :=
    mul_le_mul_of_nonneg_left hI0 (Real.exp_nonneg A1)
  have e2 : Real.exp A1 * (0.0001 * Real.exp (-12)) =
      Real.exp A0 * (0.0001 * Real.exp (112500000 / 1000001 - 12)) := by
    rw [hdiff, Real.exp_add, Real.exp_sub]
    have hpos : Real.exp (-12 : ℝ) = (Real.exp 12)⁻¹ := by
      rw [Real.exp_neg]
    rw [hpos]
    field_simp
    ring
  have e3 : Real.exp A0 * (0.0001 * Real.exp 100) ≤
      Real.exp A0 * (0.0001 * Real.exp (112500000 / 1000001 - 12)) := by
    apply mul_le_mul_of_nonneg_left _ (Real.exp_nonneg A0)
    apply mul_le_mul_of_nonneg_left _ (by norm_num : (0 : ℝ) ≤ 0.0001)
    rw [Real.exp_le_exp]
    norm_num
  have e4 : Real.exp A0 * 3 < Real.exp A0 * (0.0001 * 456976) := by
    apply mul_lt_mul_of_pos_left _ (Real.exp_pos A0)
    norm_num
  have e5 : Real.exp A0 * (0.0001 * 456976) ≤ Real.exp A0 * (0.0001 * Real.exp 100) := by
    apply mul_le_mul_of_nonneg_left _ (Real.exp_nonneg A0)
    exact mul_le_mul_of_nonneg_left hexp100 (by norm_num)
  have e6 : Real.exp A0 * xIntegral (3 / 4) (3 / 4) ≤ Real.exp A0 * 3 :=
    mul_le_mul_of_nonneg_left hI1 (Real.exp_nonneg A0)
  linarith
